import Mathlib

/-
  Verification of the Progress Forecasting Engine of
  `jira_mermaid_chart_generator.py`.

  Shallow embedding conventions:
  * story points are rationals (`ℚ`), real-valued forecast arithmetic
    (which involves `** 0.5`) is over `ℝ` with `Real.sqrt`;
  * timestamps are integers (day numbers), matching the day-granular
    `.date()` comparisons in the source;
  * fallible Python operations (list indexing, unbound local variables,
    the unbounded `while` loop of the grid builder) are modelled with
    `Option` and an explicit fuel parameter, `none` standing for a raised
    exception / a computation that has not terminated.
-/

namespace Burnup

/-- One raw JIRA issue record, as seen by
`calculate_story_points_over_time`.  `primary`/`fallback` model
`fields.get(story_point_field)` / `fields.get(zakkuri_point_field)`:
the outer `Option` is presence of the field (a JSON `null` behaves like
absence, as `dict.get` returns `None` for it), the inner `Option` is
whether `float(...)` parses.  `created` and `resolutiondate` are
day-number timestamps (`none` = absent). -/
structure Issue where
  primary : Option (Option ℚ)
  fallback : Option (Option ℚ)
  created : Option ℤ
  status : String
  resolutiondate : Option ℤ

/-- The completed statuses of line 387 of the source. -/
def completedStatuses : List String :=
  ["Done", "Closed", "Resolved", "完了", "クローズ"]

/-- Points resolution (lines 355-367): primary field first, the fallback
field only when the primary is absent and a fallback field id is
configured (`fb`); `none` when the chosen value is absent or does not
parse as a float. -/
def issuePoints (fb : Bool) (iss : Issue) : Option ℚ :=
  match iss.primary with
  | some v => v
  | none => if fb then iss.fallback.join else none

/-- Completion predicate of lines 383-395: status is one of the
completed statuses, a resolution date is set, and it is on or before the
bucket date. -/
def isCompletedAt (iss : Issue) (d : ℤ) : Bool :=
  completedStatuses.contains iss.status &&
    (match iss.resolutiondate with
     | some r => decide (r ≤ d)
     | none => false)

/-- One step of the per-bucket accumulation loop (lines 351-398):
`acc = (total_points, completed_points)`. -/
def bucketStep (fb : Bool) (today d : ℤ) (acc : ℚ × ℚ) (iss : Issue) : ℚ × ℚ :=
  match issuePoints fb iss with
  | none => acc
  | some p =>
    match iss.created with
    | none => acc
    | some cr =>
      if cr ≤ d then
        (acc.1 + p,
          if today < d then acc.2
          else if isCompletedAt iss d then acc.2 + p else acc.2)
      else acc

/-- `(total_points, completed_points)` for one bucket date `d`
(lines 344-401). -/
def bucketSums (fb : Bool) (issues : List Issue) (today d : ℤ) : ℚ × ℚ :=
  issues.foldl (bucketStep fb today d) (0, 0)

/-- Spec-side per-issue contribution to `total_points` at bucket `d`
(used to state that `bucketSums` is a plain sum over issues). -/
def contribTotal (fb : Bool) (d : ℤ) (iss : Issue) : ℚ :=
  match issuePoints fb iss, iss.created with
  | some p, some cr => if cr ≤ d then p else 0
  | _, _ => 0

/-- Spec-side per-issue contribution to `completed_points` at bucket `d`. -/
def contribCompleted (fb : Bool) (today d : ℤ) (iss : Issue) : ℚ :=
  match issuePoints fb iss, iss.created with
  | some p, some cr =>
    if cr ≤ d then
      (if today < d then 0 else if isCompletedAt iss d then p else 0)
    else 0
  | _, _ => 0

/-- The forward-fill loop of lines 403-411, with the running
`last_actual_completed` variable made explicit (`none` = Python `None`). -/
def forwardFillAux (today : ℤ) : Option ℚ → List (ℤ × ℚ) → List ℚ
  | _, [] => []
  | last, (d, c) :: rest =>
    if d ≤ today then c :: forwardFillAux today (some c) rest
    else
      match last with
      | some v => v :: forwardFillAux today (some v) rest
      | none => c :: forwardFillAux today none rest

/-- Forward-fill pass over parallel date/completed lists. -/
def forwardFill (today : ℤ) (dates : List ℤ) (completed : List ℚ) : List ℚ :=
  forwardFillAux today none (dates.zip completed)

/-- The date-grid `while` loop of lines 331-337, with explicit fuel:
`none` means the loop has not terminated within `fuel` iterations. -/
def buildDatesAux (e iv : ℤ) : ℕ → ℤ → Option (List ℤ)
  | 0, cur => if e < cur then some [] else none
  | fuel + 1, cur =>
    if e < cur then some []
    else (buildDatesAux e iv fuel (cur + iv)).map (fun l => cur :: l)

/-- The grid construction at `(s, e, iv)` runs forever: no amount of fuel
makes the `while` loop of lines 333-336 finish. -/
def buildDatesDiverges (s e iv : ℤ) : Prop :=
  ∀ fuel : ℕ, buildDatesAux e iv fuel s = none

/-- `calculate_story_points_over_time` (lines 309-416): builds the date
grid, aggregates per bucket, then forward-fills completed values.
Output `(dates, total_points_over_time, completed_points_over_time)`. -/
def calculate_story_points_over_time (fb : Bool) (issues : List Issue)
    (s e iv today : ℤ) (fuel : ℕ) : Option (List ℤ × List ℚ × List ℚ) :=
  match buildDatesAux e iv fuel s with
  | none => none
  | some dates =>
    let pre := dates.map (bucketSums fb issues today)
    some (dates, pre.map Prod.fst, forwardFill today dates (pre.map Prod.snd))

/-- The loop body of lines 742-745, carrying the previous completed
value `a`. -/
def temp_velocitiesAux (a : ℚ) : List ℚ → List ℚ
  | [] => []
  | b :: rest =>
    if 0 < b - a then (b - a) :: temp_velocitiesAux b rest
    else temp_velocitiesAux b rest

/-- The velocity-increment collection of `main`, lines 740-746: strictly
positive deltas only (the `len >= 2` guard is subsumed: a shorter list
yields no loop iterations). -/
def temp_velocities : List ℚ → List ℚ
  | [] => []
  | a :: rest => temp_velocitiesAux a rest

/-- `chart_velocity` before the multiplier, line 746. -/
def chart_velocity_base (completed : List ℚ) : ℚ :=
  if temp_velocities completed = [] then 0
  else (temp_velocities completed).sum / (temp_velocities completed).length

/-- The grid-extension step of `main`, lines 750-780.  `none` models a
raised `IndexError` (`completed_points[actual_data_length - 1]` or
`dates[-1]` out of range). -/
def extendGrid (iv : ℤ) (velocity target : ℚ) (adl : ℕ)
    (dates : List ℤ) (total completed : List ℚ) :
    Option (List ℤ × List ℚ × List ℚ) :=
  if velocity ≤ 0 then some (dates, total, completed)
  else
    match (if 0 < target then
             match (if 0 < adl then completed.get? (adl - 1) else some 0) with
             | none => none
             | some cc =>
               if 0 < target - cc then
                 some (adl + ((⌊(target - cc) / velocity⌋).toNat + 1) + 2)
               else some (adl + 5)
           else some (dates.length + 5)) with
    | none => none
    | some ptt =>
      if dates.length < ptt then
        match dates.getLast? with
        | none => none
        | some last =>
          some (dates ++
                  (List.range (ptt - dates.length)).map
                    (fun i => last + iv * Int.ofNat (i + 1)),
                total ++ List.replicate (ptt - dates.length) (total.getLast?.getD 0),
                completed ++
                  List.replicate (ptt - dates.length) (completed.getLast?.getD 0))
      else some (dates, total, completed)

/-- The loop body of lines 456-459, carrying the previous completed
value `a`. -/
noncomputable def derivedVelocitiesAux (a : ℝ) : List ℝ → List ℝ
  | [] => []
  | b :: rest =>
    if 0 ≤ b - a then (b - a) :: derivedVelocitiesAux b rest
    else derivedVelocitiesAux b rest

/-- The per-period velocity collection of `calculate_velocity_forecast`,
lines 454-459: deltas of consecutive completed values, keeping the
non-negative ones. -/
noncomputable def derivedVelocities : List ℝ → List ℝ
  | [] => []
  | a :: rest => derivedVelocitiesAux a rest

/-- Lines 461-476: `(base_velocity, std_dev)` from the retained deltas;
`(0, 0)` when fewer than 2 are retained (the Python `not velocities or
len(velocities) < 2`); otherwise the arithmetic mean and the square root
of the population variance (`variance ** 0.5`). -/
noncomputable def derivedStats (velocities : List ℝ) : ℝ × ℝ :=
  if velocities.length < 2 then (0, 0)
  else
    let bv := velocities.sum / (velocities.length : ℝ)
    (bv, Real.sqrt ((velocities.map (fun v => (v - bv) ^ 2)).sum / (velocities.length : ℝ)))

/-- Lines 451-505: the `(avg_velocity, std_dev)` pair actually used for
the forecast.  `none` models the `UnboundLocalError` raised by the
`print` on line 503, which reads `base_velocity` in the branch where no
API velocity is used although `base_velocity` is only assigned when at
least 2 deltas were retained (line 469) or an API velocity is used
(line 482). -/
noncomputable def velStdParams (c : List ℝ) (adl : ℕ) (iv : ℝ)
    (apiV apiDur apiStd : Option ℝ) (mult : ℝ) : Option (ℝ × ℝ) :=
  let velocities := derivedVelocities (c.take adl)
  let ds := derivedStats velocities
  match apiV, apiDur with
  | some a, some dur =>
    if 0 < a ∧ 0 < dur then
      some (a * (iv / dur) * mult,
        match apiStd with
        | some s => if 0 < s then s * (iv / dur) else ds.2
        | none => ds.2)
    else if velocities.length < 2 then none else some (ds.1 * mult, ds.2)
  | _, _ => if velocities.length < 2 then none else some (ds.1 * mult, ds.2)

/-- One forecast series (lines 538-558): actual values below `adl`,
`last + rate * periods_ahead` from `adl` on. -/
noncomputable def forecastLine (actual : List ℝ) (adl : ℕ) (last rate : ℝ)
    (n : ℕ) : List ℝ :=
  (List.range n).map
    (fun i => if i < adl then actual.getD i 0
              else last + rate * ((i - adl + 1 : ℕ) : ℝ))

/-- `calculate_velocity_forecast` (lines 418-560).  Returns
`(forecast_avg, avg_velocity, forecast_optimistic, forecast_pessimistic,
optimistic_velocity, pessimistic_velocity)`; `none` models a raised
exception (see `velStdParams`). -/
noncomputable def calculate_velocity_forecast (c : List ℝ) (n : ℕ)
    (t iv : ℝ) (adl : ℕ) (apiV apiDur apiStd : Option ℝ) (mult : ℝ) :
    Option (List ℝ × ℝ × List ℝ × List ℝ × ℝ × ℝ) :=
  if c = [] ∨ adl < 1 then
    some (List.replicate n 0, 0, List.replicate n 0, List.replicate n 0, 0, 0)
  else
    let actual := c.take adl
    match velStdParams c adl iv apiV apiDur apiStd mult with
    | none => none
    | some (avg, std) =>
      let ov := avg + 1.282 * std * mult
      let pv := max 0 (avg - 1.282 * std * mult)
      if adl = 0 then
        some (List.replicate n 0, avg, List.replicate n 0, List.replicate n 0, ov, pv)
      else if actual = [] then
        some (List.replicate n 0, avg, List.replicate n 0, List.replicate n 0, ov, pv)
      else
        let adl2 := min adl actual.length
        match actual.get? (adl2 - 1) with
        | none => none
        | some last =>
          some (forecastLine actual adl2 last avg n, avg,
                forecastLine actual adl2 last ov n,
                forecastLine actual adl2 last pv n, ov, pv)


/-! ### Helper lemmas about the date-grid builder -/

lemma buildDatesAux_nonpos (e iv : ℤ) (hiv : iv ≤ 0) :
    ∀ (fuel : ℕ) (cur : ℤ), cur ≤ e → buildDatesAux e iv fuel cur = none := by
  intro fuel
  induction fuel with
  | zero => intro cur h; simp [buildDatesAux, not_lt.mpr h]
  | succ f ih =>
    intro cur h
    simp only [buildDatesAux, not_lt.mpr h, if_false]
    rw [ih (cur + iv) (by omega)]
    rfl

lemma buildDatesAux_total (e iv : ℤ) (hiv : 1 ≤ iv) :
    ∀ (fuel : ℕ) (cur : ℤ), (e + 1 - cur).toNat ≤ fuel →
      (buildDatesAux e iv fuel cur).isSome := by
  intro fuel
  induction fuel with
  | zero =>
    intro cur h
    have : e < cur := by omega
    simp [buildDatesAux, this]
  | succ f ih =>
    intro cur h
    by_cases hc : e < cur
    · simp [buildDatesAux, hc]
    · have h2 := ih (cur + iv) (by omega)
      rcases Option.isSome_iff_exists.mp h2 with ⟨l, hl⟩
      simp [buildDatesAux, hc, hl]

lemma buildDatesAux_head (e iv : ℤ) :
    ∀ (fuel : ℕ) (cur a : ℤ) (l : List ℤ),
      buildDatesAux e iv fuel cur = some (a :: l) → a = cur := by
  intro fuel cur a l h
  cases fuel with
  | zero =>
    by_cases hc : e < cur <;> simp [buildDatesAux, hc] at h
  | succ f =>
    by_cases hc : e < cur
    · simp [buildDatesAux, hc] at h
    · simp only [buildDatesAux, hc, if_false, Option.map_eq_some'] at h
      obtain ⟨l', _, hl⟩ := h
      exact (List.cons.injEq .. ▸ hl).1.symm

lemma buildDatesAux_lb (e iv : ℤ) (hiv : 1 ≤ iv) :
    ∀ (fuel : ℕ) (cur : ℤ) (l : List ℤ),
      buildDatesAux e iv fuel cur = some l → ∀ x ∈ l, cur ≤ x := by
  intro fuel
  induction fuel with
  | zero =>
    intro cur l h
    by_cases hc : e < cur <;> simp [buildDatesAux, hc] at h
    subst h; simp
  | succ f ih =>
    intro cur l h
    by_cases hc : e < cur
    · simp [buildDatesAux, hc] at h; subst h; simp
    · simp only [buildDatesAux, hc, if_false, Option.map_eq_some'] at h
      obtain ⟨l', hl', rfl⟩ := h
      intro x hx
      rcases List.mem_cons.mp hx with rfl | hx
      · exact le_refl x
      · have := ih (cur + iv) l' hl' x hx
        omega

lemma buildDatesAux_pairwise (e iv : ℤ) (hiv : 1 ≤ iv) :
    ∀ (fuel : ℕ) (cur : ℤ) (l : List ℤ),
      buildDatesAux e iv fuel cur = some l → l.Pairwise (· < ·) := by
  intro fuel
  induction fuel with
  | zero =>
    intro cur l h
    by_cases hc : e < cur <;> simp [buildDatesAux, hc] at h
    subst h; simp
  | succ f ih =>
    intro cur l h
    by_cases hc : e < cur
    · simp [buildDatesAux, hc] at h; subst h; simp
    · simp only [buildDatesAux, hc, if_false, Option.map_eq_some'] at h
      obtain ⟨l', hl', rfl⟩ := h
      refine List.Pairwise.cons ?_ (ih (cur + iv) l' hl')
      intro x hx
      have := buildDatesAux_lb e iv hiv f (cur + iv) l' hl' x hx
      omega

/-! ### Helper lemmas about the forward-fill pass -/

lemma forwardFillAux_length (today : ℤ) :
    ∀ (last : Option ℚ) (l : List (ℤ × ℚ)),
      (forwardFillAux today last l).length = l.length := by
  intro last l
  induction l generalizing last with
  | nil => rfl
  | cons p rest ih =>
    obtain ⟨d, c⟩ := p
    by_cases hd : d ≤ today
    · simp [forwardFillAux, hd, ih]
    · cases last with
      | some v => simp [forwardFillAux, hd, ih]
      | none => simp [forwardFillAux, hd, ih]

lemma forwardFillAux_future_some (today : ℤ) (v : ℚ) :
    ∀ (l : List (ℤ × ℚ)), (∀ p ∈ l, today < p.1) →
      forwardFillAux today (some v) l = List.replicate l.length v := by
  intro l
  induction l with
  | nil => intro _; rfl
  | cons p rest ih =>
    intro h
    obtain ⟨d, c⟩ := p
    have hd : ¬ d ≤ today := by
      have := h (d, c) (List.mem_cons_self _ _)
      simpa using not_le.mpr this
    simp [forwardFillAux, hd, ih (fun q hq => h q (List.mem_cons_of_mem _ hq)),
      List.replicate_succ]

lemma forwardFillAux_future_none (today : ℤ) :
    ∀ (l : List (ℤ × ℚ)), (∀ p ∈ l, today < p.1) →
      forwardFillAux today none l = l.map Prod.snd := by
  intro l
  induction l with
  | nil => intro _; rfl
  | cons p rest ih =>
    intro h
    obtain ⟨d, c⟩ := p
    have hd : ¬ d ≤ today := by
      have := h (d, c) (List.mem_cons_self _ _)
      simpa using not_le.mpr this
    simp [forwardFillAux, hd, ih (fun q hq => h q (List.mem_cons_of_mem _ hq))]

lemma forwardFillAux_append (today : ℤ) (dj : ℤ) (cj : ℚ) (l2 : List (ℤ × ℚ))
    (hdj : dj ≤ today) (h2 : ∀ p ∈ l2, today < p.1) :
    ∀ (l1 : List (ℤ × ℚ)) (last : Option ℚ),
      forwardFillAux today last (l1 ++ (dj, cj) :: l2) =
        forwardFillAux today last l1 ++ cj :: List.replicate l2.length cj := by
  intro l1
  induction l1 with
  | nil =>
    intro last
    simp [forwardFillAux, hdj, forwardFillAux_future_some today cj l2 h2]
  | cons p rest ih =>
    intro last
    obtain ⟨d, c⟩ := p
    by_cases hd : d ≤ today
    · simp [forwardFillAux, hd, ih]
    · cases last with
      | some v => simp [forwardFillAux, hd, ih]
      | none => simp [forwardFillAux, hd, ih]

lemma forwardFillAux_zeros (today : ℤ) :
    ∀ (l : List (ℤ × ℚ)) (last : Option ℚ),
      (last = none ∨ last = some 0) → (∀ p ∈ l, p.2 = 0) →
      forwardFillAux today last l = List.replicate l.length 0 := by
  intro l
  induction l with
  | nil => intro last _ _; rfl
  | cons p rest ih =>
    intro last hlast h
    obtain ⟨d, c⟩ := p
    have hc : c = 0 := h (d, c) (List.mem_cons_self _ _)
    have hrest : ∀ p ∈ rest, p.2 = 0 := fun q hq => h q (List.mem_cons_of_mem _ hq)
    subst hc
    by_cases hd : d ≤ today
    · simp [forwardFillAux, hd, ih (some 0) (Or.inr rfl) hrest, List.replicate_succ]
    · rcases hlast with rfl | rfl
      · simp [forwardFillAux, hd, ih none (Or.inl rfl) hrest, List.replicate_succ]
      · simp [forwardFillAux, hd, ih (some 0) (Or.inr rfl) hrest, List.replicate_succ]

lemma forwardFillAux_values (today : ℤ) :
    ∀ (l : List (ℤ × ℚ)) (last : Option ℚ) (i : ℕ) (v : ℚ),
      (forwardFillAux today last l).get? i = some v →
      (∃ k dk, k ≤ i ∧ l.get? k = some (dk, v) ∧
        (k = i ∨ (dk ≤ today ∧ ∃ p, l.get? i = some p ∧ today < p.1)))
      ∨ (last = some v ∧ ∃ p, l.get? i = some p ∧ today < p.1) := by
  intro l
  induction l with
  | nil => intro last i v h; simp [forwardFillAux] at h
  | cons p rest ih =>
    intro last i v h
    obtain ⟨d, c⟩ := p
    by_cases hd : d ≤ today
    · rw [show forwardFillAux today last ((d, c) :: rest) =
          c :: forwardFillAux today (some c) rest by simp [forwardFillAux, hd]] at h
      cases i with
      | zero =>
        simp at h
        exact Or.inl ⟨0, d, le_refl 0, by simp [h], Or.inl rfl⟩
      | succ i =>
        simp only [List.get?_cons_succ] at h
        rcases ih (some c) i v h with ⟨k, dk, hk, hget, hcase⟩ | ⟨hlast, p, hp, hfut⟩
        · refine Or.inl ⟨k + 1, dk, by omega, by simpa using hget, ?_⟩
          rcases hcase with rfl | ⟨h1, q, hq, h2⟩
          · exact Or.inl rfl
          · exact Or.inr ⟨h1, q, by simpa using hq, h2⟩
        · have hv : v = c := by injection hlast.symm
          subst hv
          exact Or.inl ⟨0, d, by omega, by simp, Or.inr ⟨hd, p, by simpa using hp, hfut⟩⟩
    · have hsplit : forwardFillAux today last ((d, c) :: rest) =
          (match last with
           | some w => w
           | none => c) :: forwardFillAux today last rest := by
        cases last with
        | some w => simp [forwardFillAux, hd]
        | none => simp [forwardFillAux, hd]
      rw [hsplit] at h
      cases i with
      | zero =>
        simp at h
        cases last with
        | some w =>
          have hw : w = v := by simpa using h
          subst hw
          exact Or.inr ⟨rfl, (d, c), by simp, by simpa using not_le.mp hd⟩
        | none =>
          have hc : c = v := by simpa using h
          subst hc
          exact Or.inl ⟨0, d, le_refl 0, by simp, Or.inl rfl⟩
      | succ i =>
        simp only [List.get?_cons_succ] at h
        rcases ih last i v h with ⟨k, dk, hk, hget, hcase⟩ | ⟨hlast, p, hp, hfut⟩
        · refine Or.inl ⟨k + 1, dk, by omega, by simpa using hget, ?_⟩
          rcases hcase with rfl | ⟨h1, q, hq, h2⟩
          · exact Or.inl rfl
          · exact Or.inr ⟨h1, q, by simpa using hq, h2⟩
        · exact Or.inr ⟨hlast, p, by simpa using hp, hfut⟩

/-! ### Helper lemmas about the per-bucket aggregation -/

lemma bucketStep_eq (fb : Bool) (today d : ℤ) (acc : ℚ × ℚ) (iss : Issue) :
    bucketStep fb today d acc iss =
      (acc.1 + contribTotal fb d iss, acc.2 + contribCompleted fb today d iss) := by
  unfold bucketStep contribTotal contribCompleted
  cases hp : issuePoints fb iss with
  | none => simp
  | some p =>
    cases hcr : iss.created with
    | none => simp
    | some cr =>
      by_cases hcd : cr ≤ d
      · by_cases hf : today < d
        · simp [hcd, hf]
        · by_cases hcomp : isCompletedAt iss d
          · simp [hcd, hf, hcomp]
          · simp [hcd, hf, hcomp]
      · simp [hcd]

lemma bucketSums_eq (fb : Bool) (issues : List Issue) (today d : ℤ) :
    bucketSums fb issues today d =
      ((issues.map (contribTotal fb d)).sum,
       (issues.map (contribCompleted fb today d)).sum) := by
  suffices h : ∀ acc : ℚ × ℚ, issues.foldl (bucketStep fb today d) acc =
      (acc.1 + (issues.map (contribTotal fb d)).sum,
       acc.2 + (issues.map (contribCompleted fb today d)).sum) by
    rw [bucketSums, h (0, 0)]; simp
  induction issues with
  | nil => intro acc; simp
  | cons iss rest ih =>
    intro acc
    simp only [List.foldl_cons, List.map_cons, List.sum_cons, ih, bucketStep_eq]
    rw [Prod.mk.injEq]
    constructor <;> ring

lemma contribCompleted_le (fb : Bool) (today d : ℤ) (iss : Issue)
    (h : ∀ q, issuePoints fb iss = some q → 0 ≤ q) :
    contribCompleted fb today d iss ≤ contribTotal fb d iss := by
  unfold contribTotal contribCompleted
  cases hp : issuePoints fb iss with
  | none => simp
  | some p =>
    have hq := h p hp
    cases iss.created with
    | none => simp
    | some cr =>
      by_cases hcd : cr ≤ d
      · by_cases hf : today < d
        · simpa [hcd, hf] using hq
        · by_cases hcomp : isCompletedAt iss d <;> simp [hcd, hf, hcomp, hq]
      · simp [hcd]

lemma contribTotal_nonneg (fb : Bool) (d : ℤ) (iss : Issue)
    (h : ∀ q, issuePoints fb iss = some q → 0 ≤ q) :
    0 ≤ contribTotal fb d iss := by
  unfold contribTotal
  cases hp : issuePoints fb iss with
  | none => simp
  | some p =>
    have hq := h p hp
    cases iss.created with
    | none => simp
    | some cr => by_cases hcd : cr ≤ d <;> simp [hcd, hq]

lemma contribTotal_mono (fb : Bool) (d1 d2 : ℤ) (hd : d1 ≤ d2) (iss : Issue)
    (h : ∀ q, issuePoints fb iss = some q → 0 ≤ q) :
    contribTotal fb d1 iss ≤ contribTotal fb d2 iss := by
  unfold contribTotal
  cases hp : issuePoints fb iss with
  | none => simp
  | some p =>
    have hq := h p hp
    cases iss.created with
    | none => simp
    | some cr =>
      by_cases h1 : cr ≤ d1
      · simp [h1, le_trans h1 hd]
      · by_cases h2 : cr ≤ d2 <;> simp [h1, h2, hq]

lemma contribCompleted_future (fb : Bool) (today d : ℤ) (hf : today < d) (iss : Issue) :
    contribCompleted fb today d iss = 0 := by
  unfold contribCompleted
  cases issuePoints fb iss with
  | none => simp
  | some p =>
    cases iss.created with
    | none => simp
    | some cr => by_cases hcd : cr ≤ d <;> simp [hcd, hf]

lemma bucketSums_snd_le_fst (fb : Bool) (issues : List Issue) (today d : ℤ)
    (h : ∀ iss ∈ issues, ∀ q, issuePoints fb iss = some q → 0 ≤ q) :
    (bucketSums fb issues today d).2 ≤ (bucketSums fb issues today d).1 := by
  rw [bucketSums_eq]
  exact List.sum_le_sum fun iss hiss => contribCompleted_le fb today d iss (h iss hiss)

lemma bucketSums_fst_mono (fb : Bool) (issues : List Issue) (today d1 d2 : ℤ)
    (hd : d1 ≤ d2)
    (h : ∀ iss ∈ issues, ∀ q, issuePoints fb iss = some q → 0 ≤ q) :
    (bucketSums fb issues today d1).1 ≤ (bucketSums fb issues today d2).1 := by
  rw [bucketSums_eq, bucketSums_eq]
  exact List.sum_le_sum fun iss hiss => contribTotal_mono fb d1 d2 hd iss (h iss hiss)

lemma bucketSums_fst_nonneg (fb : Bool) (issues : List Issue) (today d : ℤ)
    (h : ∀ iss ∈ issues, ∀ q, issuePoints fb iss = some q → 0 ≤ q) :
    0 ≤ (bucketSums fb issues today d).1 := by
  rw [bucketSums_eq]
  exact List.sum_nonneg fun x hx => by
    obtain ⟨iss, hiss, rfl⟩ := List.mem_map.mp hx
    exact contribTotal_nonneg fb d iss (h iss hiss)

lemma bucketSums_snd_future (fb : Bool) (issues : List Issue) (today d : ℤ)
    (hf : today < d) : (bucketSums fb issues today d).2 = 0 := by
  rw [bucketSums_eq]
  refine List.sum_eq_zero fun x hx => ?_
  obtain ⟨iss, _, rfl⟩ := List.mem_map.mp hx
  exact contribCompleted_future fb today d hf iss


/-! ### Concrete evaluations and the claims -/

/-! ### Concrete evaluations of the velocity estimator -/

lemma derivedVelocities_two : derivedVelocities [(0 : ℝ), 5] = [5] := by
  norm_num [derivedVelocities, derivedVelocitiesAux]

lemma derivedStats_pair : derivedStats [(4 : ℝ), 6] = (5, 1) := by
  norm_num [derivedStats]

lemma velStdParams_three : velStdParams [(0 : ℝ), 4, 10] 3 7 none none none 1 = some (5, 1) := by
  unfold velStdParams
  norm_num [derivedVelocities, derivedVelocitiesAux, derivedStats]

lemma velStdParams_over : velStdParams [(0 : ℝ), 4, 10] 5 7 none none none 1 = some (5, 1) := by
  unfold velStdParams
  norm_num [derivedVelocities, derivedVelocitiesAux, derivedStats]

lemma velStdParams_short : velStdParams [(0 : ℝ), 5] 2 7 none none none 1 = none := by
  unfold velStdParams
  norm_num [derivedVelocities, derivedVelocitiesAux, derivedStats]

lemma forecast_clamped :
    calculate_velocity_forecast [0, 4, 10] 3 20 7 5 none none none 1 =
      some ([0, 4, 10], 5, [0, 4, 10], [0, 4, 10], 6.282, 3.718) := by
  unfold calculate_velocity_forecast
  rw [velStdParams_over]
  norm_num [forecastLine, List.range_succ, max_def]
  rw [if_neg (by simp), if_neg (by simp)]

lemma forecast_full :
    calculate_velocity_forecast [0, 4, 10] 5 20 7 3 none none none 1 =
      some ([0, 4, 10, 15, 20], 5, [0, 4, 10, 16.282, 22.564],
            [0, 4, 10, 13.718, 17.436], 6.282, 3.718) := by
  unfold calculate_velocity_forecast
  rw [velStdParams_three]
  norm_num [forecastLine, List.range_succ, max_def]
  rw [if_neg (by simp), if_neg (by simp)]

/-! ### The claims -/

/-- C1 (code bug): contrary to the spec, `calculate_velocity_forecast`
does not degrade gracefully when fewer than 2 deltas are retained and no
external velocity estimate is supplied: the diagnostic `print` on
line 503 reads `base_velocity`, which was never assigned on that path,
raising `UnboundLocalError`.  At the concrete input below (two actual
buckets, a single retained delta, no API velocity) the call fails. -/
theorem C1_crash_on_insufficient_data :
    calculate_velocity_forecast [0, 5] 2 10 7 2 none none none 1 = none := by
  unfold calculate_velocity_forecast
  rw [velStdParams_short]
  norm_num
  intro h
  exact absurd h (by simp)

/-- C2, counterexample: with a non-empty completed series of length 3 and
`actual_data_length = 5 > 3`, the output is not zero-filled (the mean
velocity returned is 5, the series are the actual values), contradicting
the claimed degenerate behaviour for `actualDataLength` exceeding the
series length. -/
theorem C2_counterexample :
    calculate_velocity_forecast [0, 4, 10] 3 20 7 5 none none none 1 ≠
      some (List.replicate 3 0, 0, List.replicate 3 0, List.replicate 3 0, 0, 0) := by
  rw [forecast_clamped]
  intro h
  rw [Option.some.injEq] at h
  have h5 : (5 : ℝ) = 0 := congrArg (fun r => r.2.1) h
  norm_num at h5

/-- C2, amended: the zero-filled degenerate output occurs exactly for an
empty completed series or `actual_data_length < 1`; an
`actual_data_length` exceeding the series length is instead clamped to
the series length (line 528-529) and the forecast proceeds normally. -/
theorem C2_amended (c : List ℝ) (n : ℕ) (t iv : ℝ) (adl : ℕ)
    (apiV apiDur apiStd : Option ℝ) (mult : ℝ) :
    ((c = [] ∨ adl < 1) →
      calculate_velocity_forecast c n t iv adl apiV apiDur apiStd mult =
        some (List.replicate n 0, 0, List.replicate n 0, List.replicate n 0, 0, 0))
    ∧ (c ≠ [] → c.length ≤ adl →
      calculate_velocity_forecast c n t iv adl apiV apiDur apiStd mult =
        calculate_velocity_forecast c n t iv c.length apiV apiDur apiStd mult) := by
  constructor
  · intro h
    unfold calculate_velocity_forecast
    rw [if_pos h]
  · intro hc hlen
    have hlen1 : 1 ≤ c.length := List.length_pos.mpr hc
    have htake : c.take adl = c := List.take_of_length_le hlen
    have htake2 : c.take c.length = c := List.take_length c
    have hadl0 : ¬ adl = 0 := by omega
    have hlen0 : ¬ c.length = 0 := by omega
    unfold calculate_velocity_forecast velStdParams
    simp only [htake, htake2, min_eq_right hlen, min_self,
      if_neg (show ¬(c = [] ∨ adl < 1) by push_neg; exact ⟨hc, by omega⟩),
      if_neg (show ¬(c = [] ∨ c.length < 1) by push_neg; exact ⟨hc, by omega⟩),
      if_neg hadl0, if_neg hlen0]

/-- C6, counterexample: the Grid Extender's derived velocity (lines
740-746 of `main`) does not treat a single retained delta as
insufficient data: for the completed prefix `[0, 5]` there is exactly one
retained delta and the derived mean is 5, not the 0 the claim requires
for fewer than 2 retained deltas. -/
theorem C6_counterexample :
    chart_velocity_base [0, 5] = 5 ∧ (5 : ℚ) ≠ 0 := by
  constructor
  · norm_num [chart_velocity_base, temp_velocities, temp_velocitiesAux]
  · norm_num

/-- C6, amended: the forecast-side estimator behaves as claimed (keeps
non-negative deltas, yields `(0, 0)` below 2 retained deltas, arithmetic
mean and population std-dev otherwise, with `[4, -1, 6] ↦ (5, 1)`), but
the Grid Extender's velocity keeps only strictly positive deltas
(`[0, 4, 4, 10] ↦ mean 5`, the zero delta being dropped) and uses the
average as soon as one delta remains. -/
theorem C6_amended (c : List ℝ) (h : (derivedVelocities c).length < 2) :
    derivedStats (derivedVelocities c) = (0, 0)
    ∧ derivedVelocities [0, 4, 3, 9] = [4, 6]
    ∧ derivedStats [4, 6] = (5, 1)
    ∧ chart_velocity_base [0, 4, 4, 10] = 5 := by
  have htv : temp_velocities [0, 4, 4, 10] = [4, 6] := by
    norm_num [temp_velocities, temp_velocitiesAux]
  refine ⟨?_, by norm_num [derivedVelocities, derivedVelocitiesAux], derivedStats_pair, ?_⟩
  · unfold derivedStats
    rw [if_pos h]
  · unfold chart_velocity_base
    rw [htv, if_neg (by simp)]
    norm_num

/-- C6, witness: the amended statement applied to the completed prefix
`[0, 5]`, whose single retained delta trips the insufficient-data case. -/
theorem C6_witness :
    derivedStats (derivedVelocities [(0 : ℝ), 5]) = (0, 0) :=
  (C6_amended [0, 5] (by rw [derivedVelocities_two]; norm_num)).1

/-- C10: the aggregator applies no non-negativity check: its per-bucket
result is the plain sum of per-issue contributions, where any parseable
points value with a present creation date on or before the bucket is
added to the total (and to the completed sum when the completion
predicate holds) regardless of sign; in particular a single issue worth
`-3` points yields bucket sums `(-3, -3)`. -/
theorem C10_no_nonnegativity_check (fb : Bool) (issues : List Issue) (today d : ℤ) :
    bucketSums fb issues today d =
      ((issues.map (contribTotal fb d)).sum,
       (issues.map (contribCompleted fb today d)).sum)
    ∧ bucketSums false [⟨some (some (-3)), none, some 0, "Done", some 0⟩] 0 0 = (-3, -3) :=
  ⟨bucketSums_eq fb issues today d,
   by simp [bucketSums, bucketStep, issuePoints, isCompletedAt, completedStatuses]⟩

/-- C4, counterexample: with positive velocity 1 and target scope 0 the
extension step is not idempotent: a first run extends the single-bucket
grid to 6 buckets, and a second run with identical inputs extends it
again to 11 buckets (the `target_value <= 0` branch aims at
`len(dates) + 5`, which moves with every run). -/
theorem C4_counterexample :
    extendGrid 7 1 0 1 [0] [0] [0] =
      some ([0, 7, 14, 21, 28, 35], [0, 0, 0, 0, 0, 0], [0, 0, 0, 0, 0, 0])
    ∧ extendGrid 7 1 0 1 [0, 7, 14, 21, 28, 35] [0, 0, 0, 0, 0, 0] [0, 0, 0, 0, 0, 0] =
      some ([0, 7, 14, 21, 28, 35, 42, 49, 56, 63, 70],
            [0, 0, 0, 0, 0, 0, 0, 0, 0, 0, 0], [0, 0, 0, 0, 0, 0, 0, 0, 0, 0, 0])
    ∧ ([0, 7, 14, 21, 28, 35, 42, 49, 56, 63, 70] : List ℤ).length ≠
      ([0, 7, 14, 21, 28, 35] : List ℤ).length := by
  refine ⟨?_, ?_, by norm_num⟩
  · unfold extendGrid
    norm_num [List.range_succ, List.replicate_succ]
  · unfold extendGrid
    norm_num [List.range_succ, List.replicate_succ]

lemma extendGrid_cc_stable (adl : ℕ) (completed add : List ℚ) (cc : ℚ)
    (hcc : (if 0 < adl then completed.get? (adl - 1) else some 0) = some cc) :
    (if 0 < adl then (completed ++ add).get? (adl - 1) else some 0) = some cc := by
  by_cases ha : 0 < adl
  · rw [if_pos ha] at hcc ⊢
    obtain ⟨hl, -⟩ := List.get?_eq_some.mp hcc
    rw [List.get?_append hl]
    exact hcc
  · rw [if_neg ha] at hcc ⊢
    exact hcc

/-- C4, amended: one extension run is a fixed point of the Grid Extender
whenever the mean velocity is nonpositive (nothing is extended) or the
target scope is positive (the aimed-at total length depends only on
`actual_data_length`, the target, the anchored completed value and the
velocity, none of which an extension changes); the claim fails only in
the `targetScope ≤ 0` branch, which aims at `len(dates) + 5`. -/
theorem C4_amended (iv : ℤ) (velocity target : ℚ) (adl : ℕ)
    (dates d2 : List ℤ) (total t2 completed c2 : List ℚ)
    (hvt : velocity ≤ 0 ∨ 0 < target)
    (h1 : extendGrid iv velocity target adl dates total completed = some (d2, t2, c2)) :
    extendGrid iv velocity target adl d2 t2 c2 = some (d2, t2, c2) := by
  by_cases hv : velocity ≤ 0
  · unfold extendGrid at h1 ⊢
    rw [if_pos hv] at h1 ⊢
  · have ht : 0 < target := hvt.resolve_left hv
    unfold extendGrid at h1
    rw [if_neg hv, if_pos ht] at h1
    split at h1
    next heq => exact absurd h1 (by simp)
    next ptt heq =>
      rcases hcc : (if 0 < adl then completed.get? (adl - 1) else some 0) with _ | cc
      · rw [hcc] at heq; exact absurd heq (by simp)
      · rw [hcc] at heq
        have heq2 : (if 0 < target - cc then
            some (adl + ((⌊(target - cc) / velocity⌋).toNat + 1) + 2)
          else (some (adl + 5) : Option ℕ)) = some ptt := heq
        split at h1
        next hlt =>
          split at h1
          next heql => exact absurd h1 (by simp)
          next last heql =>
            simp only [Option.some.injEq, Prod.mk.injEq] at h1
            obtain ⟨rfl, rfl, rfl⟩ := h1
            unfold extendGrid
            rw [if_neg hv, if_pos ht]
            rw [extendGrid_cc_stable adl completed _ cc hcc]
            have hlen : (dates ++
                (List.range (ptt - dates.length)).map
                  (fun i => last + iv * Int.ofNat (i + 1))).length = ptt := by
              simp [List.length_append, List.length_map, List.length_range]
              omega
            simp only [heq2]
            rw [hlen, if_neg (lt_irrefl ptt)]
        next hlt =>
          simp only [Option.some.injEq, Prod.mk.injEq] at h1
          obtain ⟨rfl, rfl, rfl⟩ := h1
          unfold extendGrid
          rw [if_neg hv, if_pos ht, hcc]
          simp only [heq2]
          rw [if_neg hlt]

/-- Concrete extension run: target 10, velocity 5, one actual bucket at
completed 0, so `remaining / velocity = 2` exactly. -/
lemma extendGrid_eval510 :
    extendGrid 7 5 10 1 [0] [10] [0] =
      some ([0, 7, 14, 21, 28, 35], [10, 10, 10, 10, 10, 10], [0, 0, 0, 0, 0, 0]) := by
  unfold extendGrid
  norm_num [List.range_succ, List.replicate_succ, show Int.toNat 2 = 2 from rfl]

/-- C5, counterexample: with remaining = 10 and velocity = 5 (an exact
multiple) the extended grid has 6 buckets, not the
`adl + (ceil(remaining/velocity) + 2) = 5` the claim predicts: the code
computes `int(remaining/velocity) + 1 + 2`, which is `ceil + 3` at exact
multiples. -/
theorem C5_counterexample :
    extendGrid 7 5 10 1 [0] [10] [0] =
      some ([0, 7, 14, 21, 28, 35], [10, 10, 10, 10, 10, 10], [0, 0, 0, 0, 0, 0])
    ∧ ([0, 7, 14, 21, 28, 35] : List ℤ).length ≠ 1 + ((⌈(10 : ℚ) / 5⌉).toNat + 2) :=
  ⟨extendGrid_eval510, by norm_num [show Int.toNat 2 = 2 from rfl]⟩

/-- C5, amended: for a positive velocity, positive target and positive
remaining `target - cc`, the extended grid length is
`max currentLength (adl + (floor(remaining/velocity) + 3))`; the
additional-bucket count `floor + 3` coincides with `ceil + 2` except
when the velocity exactly divides the remaining work, where it is
`ceil + 3`. -/
theorem C5_amended (iv : ℤ) (velocity target cc : ℚ) (adl : ℕ)
    (dates d2 : List ℤ) (total t2 completed c2 : List ℚ)
    (hv : 0 < velocity) (ht : 0 < target)
    (hcc : (if 0 < adl then completed.get? (adl - 1) else some 0) = some cc)
    (hr : 0 < target - cc)
    (h1 : extendGrid iv velocity target adl dates total completed = some (d2, t2, c2)) :
    d2.length = max dates.length (adl + ((⌊(target - cc) / velocity⌋).toNat + 3)) := by
  unfold extendGrid at h1
  rw [if_neg (not_le.mpr hv), if_pos ht, hcc] at h1
  split at h1
  next heq => exact absurd h1 (by simp)
  next ptt heq =>
    have heq2 : (if 0 < target - cc then
        some (adl + ((⌊(target - cc) / velocity⌋).toNat + 1) + 2)
      else (some (adl + 5) : Option ℕ)) = some ptt := heq
    rw [if_pos hr, Option.some.injEq] at heq2
    split at h1
    next hlt =>
      split at h1
      next heql => exact absurd h1 (by simp)
      next last heql =>
        simp only [Option.some.injEq, Prod.mk.injEq] at h1
        obtain ⟨rfl, -, -⟩ := h1
        simp only [List.length_append, List.length_map, List.length_range]
        omega
    next hlt =>
      simp only [Option.some.injEq, Prod.mk.injEq] at h1
      obtain ⟨rfl, -, -⟩ := h1
      omega

/-- C5, witness: the amended statement evaluated on the concrete run of
`extendGrid_eval510`. -/
theorem C5_witness :
    ([0, 7, 14, 21, 28, 35] : List ℤ).length =
      max ([0] : List ℤ).length (1 + ((⌊((10 : ℚ) - 0) / 5⌋).toNat + 3)) :=
  C5_amended 7 5 10 0 1 [0] [0, 7, 14, 21, 28, 35] [10] [10, 10, 10, 10, 10, 10]
    [0] [0, 0, 0, 0, 0, 0] (by norm_num) (by norm_num) (by norm_num) (by norm_num)
    extendGrid_eval510

/-- C4, witness: the amended statement on a concrete extension with
positive target: re-running the extender on its own output returns the
output unchanged. -/
theorem C4_witness :
    extendGrid 7 5 10 1 [0, 7, 14, 21, 28, 35] [10, 10, 10, 10, 10, 10]
        [0, 0, 0, 0, 0, 0] =
      some ([0, 7, 14, 21, 28, 35], [10, 10, 10, 10, 10, 10], [0, 0, 0, 0, 0, 0]) :=
  C4_amended 7 5 10 1 [0] [0, 7, 14, 21, 28, 35] [10] [10, 10, 10, 10, 10, 10]
    [0] [0, 0, 0, 0, 0, 0] (Or.inr (by norm_num)) extendGrid_eval510

/-- C2, witness: the amended statement on an empty completed series. -/
theorem C2_witness :
    calculate_velocity_forecast [] 2 10 7 3 none none none 1 =
      some (List.replicate 2 0, 0, List.replicate 2 0, List.replicate 2 0, 0, 0) :=
  (C2_amended [] 2 10 7 3 none none none 1).1 (Or.inl rfl)

/-- C3, counterexample: with `intervalDays = 0` and start = end = day 0,
the date-grid `while` loop of lines 333-336 never terminates: the engine
hangs instead of returning a degenerate output. -/
theorem C3_counterexample : buildDatesDiverges 0 0 0 :=
  fun fuel => buildDatesAux_nonpos 0 0 (le_refl 0) fuel 0 (le_refl 0)

/-- C3, amended: with the end date before the start date the engine
terminates with empty series, and with an empty item set it returns
zero-filled series of the grid length; the loop also terminates for any
positive interval; but with `intervalDays ≤ 0` and the start date not
after the end date the grid loop diverges, so the no-crash guarantee
fails for zero or negative intervals. -/
theorem C3_amended (fb : Bool) (issues : List Issue) (s e iv today : ℤ) (fuel : ℕ) :
    (e < s → calculate_story_points_over_time fb issues s e iv today fuel =
      some ([], [], []))
    ∧ (1 ≤ iv → ∃ f dates tot comp,
        calculate_story_points_over_time fb issues s e iv today f =
          some (dates, tot, comp))
    ∧ (iv ≤ 0 → s ≤ e → buildDatesDiverges s e iv)
    ∧ (∀ dates tot comp,
        calculate_story_points_over_time fb [] s e iv today fuel =
          some (dates, tot, comp) →
        tot = List.replicate dates.length 0 ∧ comp = List.replicate dates.length 0) := by
  refine ⟨?_, ?_, ?_, ?_⟩
  · intro h
    have hb : buildDatesAux e iv fuel s = some [] := by
      cases fuel <;> simp [buildDatesAux, h]
    unfold calculate_story_points_over_time
    rw [hb]
    rfl
  · intro hiv
    have h := buildDatesAux_total e iv hiv ((e + 1 - s).toNat) s (le_refl _)
    rcases Option.isSome_iff_exists.mp h with ⟨dates, hdates⟩
    refine ⟨(e + 1 - s).toNat, dates,
      (dates.map (bucketSums fb issues today)).map Prod.fst,
      forwardFill today dates ((dates.map (bucketSums fb issues today)).map Prod.snd), ?_⟩
    unfold calculate_story_points_over_time
    rw [hdates]
  · intro hiv hse
    exact fun f => buildDatesAux_nonpos e iv hiv f s hse
  · intro dates tot comp h
    unfold calculate_story_points_over_time at h
    cases hb : buildDatesAux e iv fuel s with
    | none => rw [hb] at h; exact absurd h (by simp)
    | some ds =>
      rw [hb] at h
      simp only [Option.some.injEq, Prod.mk.injEq] at h
      obtain ⟨rfl, rfl, rfl⟩ := h
      have hpre : ds.map (bucketSums fb [] today) =
          ds.map (fun _ => ((0 : ℚ), (0 : ℚ))) :=
        List.map_congr_left (fun d _ => rfl)
      constructor
      · rw [hpre, List.map_map]
        exact List.map_const' ds 0
      · rw [hpre, List.map_map]
        have hzip : ∀ p ∈ ds.zip (ds.map (Prod.snd ∘ fun _ => ((0 : ℚ), (0 : ℚ)))),
            p.2 = 0 := by
          intro p hp
          have := (List.of_mem_zip hp).2
          simp at this
          exact this.2.symm
        unfold forwardFill
        rw [forwardFillAux_zeros today _ none (Or.inl rfl) hzip]
        congr 1
        simp [List.length_zip]

/-- C7: after aggregation, every bucket strictly after `today` carries
the completed value of the latest bucket at or before `today`, and when
`today` precedes the whole grid every completed value is zero. -/
theorem C7_forward_fill (fb : Bool) (issues : List Issue) (s e iv today : ℤ)
    (fuel : ℕ) (dates : List ℤ) (tot comp : List ℚ) (hiv : 1 ≤ iv)
    (hcalc : calculate_story_points_over_time fb issues s e iv today fuel =
      some (dates, tot, comp)) :
    (∀ i j di dj, dates.get? i = some di → today < di →
      dates.get? j = some dj → dj ≤ today →
      (∀ k dk, j < k → dates.get? k = some dk → today < dk) →
      comp.get? i = comp.get? j)
    ∧ ((∀ d ∈ dates, today < d) → ∀ x ∈ comp, x = 0) := by
  unfold calculate_story_points_over_time at hcalc
  cases hbd : buildDatesAux e iv fuel s with
  | none => rw [hbd] at hcalc; exact absurd hcalc (by simp)
  | some ds =>
    rw [hbd] at hcalc
    simp only [Option.some.injEq, Prod.mk.injEq] at hcalc
    obtain ⟨rfl, -, rfl⟩ := hcalc
    set f : ℤ → ℚ := fun d => (bucketSums fb issues today d).2 with hf
    have hpre : (ds.map (bucketSums fb issues today)).map Prod.snd = ds.map f := by
      rw [List.map_map]; rfl
    set L : List (ℤ × ℚ) := ds.map (fun d => (d, f d)) with hL
    have hzip : ds.zip ((ds.map (bucketSums fb issues today)).map Prod.snd) = L := by
      rw [hpre, hL]
      exact (List.map_prod_left_eq_zip f).symm
    have hcomp : forwardFill today ds ((ds.map (bucketSums fb issues today)).map Prod.snd) =
        forwardFillAux today none L := by
      unfold forwardFill
      rw [hzip]
    have hLget : ∀ (n : ℕ), L.get? n = (ds.get? n).map (fun d => (d, f d)) :=
      fun n => List.get?_map _ _ _
    have hLlen : L.length = ds.length := List.length_map _ _
    constructor
    · intro i j di dj hi hdi hj hdj hfut
      obtain ⟨hilen, -⟩ := List.get?_eq_some.mp hi
      obtain ⟨hjlen, -⟩ := List.get?_eq_some.mp hj
      -- j < i
      have hij : j < i := by
        rcases lt_trichotomy j i with h | h | h
        · exact h
        · exfalso; subst h; rw [hi] at hj
          have : di = dj := by injection hj
          omega
        · exfalso
          have := List.pairwise_iff_get.mp
            (buildDatesAux_pairwise e iv hiv fuel s ds hbd) ⟨i, hilen⟩ ⟨j, hjlen⟩ h
          rw [List.get?_eq_get hilen] at hi
          rw [List.get?_eq_get hjlen] at hj
          have hdi' : ds.get ⟨i, hilen⟩ = di := by injection hi
          have hdj' : ds.get ⟨j, hjlen⟩ = dj := by injection hj
          rw [hdi', hdj'] at this
          omega
      have hjL : j < L.length := by omega
      have hiL : i < L.length := by omega
      -- the entry at j
      have hLj : L.get? j = some (dj, f dj) := by rw [hLget, hj]; rfl
      have hgetLj : L.get ⟨j, hjL⟩ = (dj, f dj) := by
        rw [List.get?_eq_get hjL] at hLj
        injection hLj
      -- decomposition of L around j
      have hdecomp : L = L.take j ++ (dj, f dj) :: L.drop (j + 1) := by
        conv_lhs => rw [← List.take_append_drop j L]
        rw [List.drop_eq_get_cons hjL, hgetLj]
      -- everything after j is future
      have hfut2 : ∀ p ∈ L.drop (j + 1), today < p.1 := by
        intro p hp
        obtain ⟨n, hn⟩ := List.mem_iff_get?.mp hp
        rw [List.get?_drop] at hn
        rw [hLget] at hn
        cases hdk : ds.get? (j + 1 + n) with
        | none => rw [hdk] at hn; exact absurd hn (by simp)
        | some dk =>
          rw [hdk] at hn
          have hp' : p = (dk, f dk) := by simpa using hn.symm
          rw [hp']
          exact hfut (j + 1 + n) dk (by omega) hdk
      -- fill the decomposition
      have happ := forwardFillAux_append today dj (f dj) (L.drop (j + 1)) hdj hfut2
        (L.take j) none
      have hCA : forwardFillAux today none L =
          forwardFillAux today none (L.take j) ++
            (f dj) :: List.replicate (L.drop (j + 1)).length (f dj) := by
        conv_lhs => rw [hdecomp]
        exact happ
      have hAlen : (forwardFillAux today none (L.take j)).length = j := by
        rw [forwardFillAux_length, List.length_take]
        omega
      have hcj : (forwardFillAux today none L).get? j = some (f dj) := by
        rw [hCA, List.get?_append_right (by omega)]
        rw [hAlen, Nat.sub_self]
        rfl
      have hci : (forwardFillAux today none L).get? i = some (f dj) := by
        rw [hCA, List.get?_append_right (by omega), hAlen]
        have hdroplen : (L.drop (j + 1)).length = L.length - (j + 1) :=
          List.length_drop _ _
        have hpos : 0 < i - j := by omega
        cases hc : i - j with
        | zero => omega
        | succ m =>
          simp only [List.get?_cons_succ]
          have hm : m < (List.replicate (L.drop (j + 1)).length (f dj)).length := by
            rw [List.length_replicate]; omega
          rw [List.get?_eq_get hm, List.get_replicate]
      rw [hcomp, hci, hcj]
    · intro hall x hx
      have hfutL : ∀ p ∈ L, today < p.1 := by
        intro p hp
        obtain ⟨d, hd, rfl⟩ := List.mem_map.mp hp
        exact hall d hd
      rw [hcomp, forwardFillAux_future_none today L hfutL] at hx
      rw [List.map_map] at hx
      obtain ⟨d, hd, rfl⟩ := List.mem_map.mp hx
      exact bucketSums_snd_future fb issues today d (hall d hd)

/-- C8: with well-formed items (points present, parseable, non-negative;
creation date present), every completed bucket value is bounded by the
total bucket value, including forward-filled future buckets. -/
theorem C8_completed_le_total (fb : Bool) (issues : List Issue) (s e iv today : ℤ)
    (fuel : ℕ) (dates : List ℤ) (tot comp : List ℚ)
    (hcalc : calculate_story_points_over_time fb issues s e iv today fuel =
      some (dates, tot, comp))
    (hwf : ∀ iss ∈ issues,
      (∃ q, issuePoints fb iss = some q ∧ 0 ≤ q) ∧ iss.created ≠ none)
    (i : ℕ) (ci ti : ℚ) (hci : comp.get? i = some ci) (hti : tot.get? i = some ti) :
    ci ≤ ti := by
  have hq : ∀ iss ∈ issues, ∀ q, issuePoints fb iss = some q → 0 ≤ q := by
    intro iss hiss q hq'
    obtain ⟨⟨q', hq'', hq0⟩, -⟩ := hwf iss hiss
    rw [hq'] at hq''
    injection hq'' with h
    subst h
    exact hq0
  unfold calculate_story_points_over_time at hcalc
  cases hbd : buildDatesAux e iv fuel s with
  | none => rw [hbd] at hcalc; exact absurd hcalc (by simp)
  | some ds =>
    rw [hbd] at hcalc
    simp only [Option.some.injEq, Prod.mk.injEq] at hcalc
    obtain ⟨rfl, rfl, rfl⟩ := hcalc
    rw [List.map_map, List.get?_map] at hti
    cases hdi : ds.get? i with
    | none => rw [hdi] at hti; exact absurd hti (by simp)
    | some di =>
      rw [hdi] at hti
      have hti' : (bucketSums fb issues today di).1 = ti := by simpa using hti
      set f : ℤ → ℚ := fun d => (bucketSums fb issues today d).2 with hf
      set L : List (ℤ × ℚ) := ds.map (fun d => (d, f d)) with hL
      have hzip : ds.zip ((ds.map (bucketSums fb issues today)).map Prod.snd) = L := by
        rw [List.map_map]
        exact (List.map_prod_left_eq_zip f).symm
      have hci' : (forwardFillAux today none L).get? i = some ci := by
        unfold forwardFill at hci
        rw [hzip] at hci
        exact hci
      have hLget : ∀ (n : ℕ), L.get? n = (ds.get? n).map (fun d => (d, f d)) :=
        fun n => List.get?_map _ _ _
      have hLi : L.get? i = some (di, f di) := by rw [hLget, hdi]; rfl
      rcases forwardFillAux_values today L none i ci hci' with
        ⟨k, dk, hk, hgetk, hcase⟩ | ⟨hnone, -⟩
      · rw [hLget] at hgetk
        cases hdsk : ds.get? k with
        | none => rw [hdsk] at hgetk; exact absurd hgetk (by simp)
        | some dk' =>
          rw [hdsk] at hgetk
          have hpair : (dk', f dk') = (dk, ci) := by simpa using hgetk
          injection hpair with h1 h2
          subst h1
          subst h2
          rcases hcase with rfl | ⟨hdklet, p, hpi, hfutp⟩
          · rw [hdi] at hdsk
            have hdieq : di = dk' := by injection hdsk
            rw [← hti', ← hdieq]
            exact bucketSums_snd_le_fst fb issues today di hq
          · have hpdi : (di, f di) = p := by
              rw [hLi] at hpi
              injection hpi
            have hdi_fut : today < di := by
              rw [← hpdi] at hfutp
              exact hfutp
            rw [← hti']
            calc f dk' ≤ (bucketSums fb issues today dk').1 :=
                  bucketSums_snd_le_fst fb issues today dk' hq
              _ ≤ (bucketSums fb issues today di).1 :=
                  bucketSums_fst_mono fb issues today dk' di (by omega) hq
      · exact absurd hnone (by simp)

lemma forecastLine_get (actual : List ℝ) (adl : ℕ) (last rate : ℝ) (n i : ℕ)
    (hi : i < n) :
    (forecastLine actual adl last rate n).get? i =
      some (if i < adl then actual.getD i 0
            else last + rate * ((i - adl + 1 : ℕ) : ℝ)) := by
  unfold forecastLine
  rw [List.get?_map, List.get?_range hi]
  rfl

lemma calc_closed (c : List ℝ) (n : ℕ) (t iv : ℝ) (adl : ℕ)
    (apiV apiDur apiStd : Option ℝ) (mult avg std : ℝ)
    (hc : c ≠ []) (h1 : 1 ≤ adl) (h2 : adl ≤ c.length)
    (hp : velStdParams c adl iv apiV apiDur apiStd mult = some (avg, std)) :
    calculate_velocity_forecast c n t iv adl apiV apiDur apiStd mult =
      some (forecastLine (c.take adl) adl (c.getD (adl - 1) 0) avg n, avg,
            forecastLine (c.take adl) adl (c.getD (adl - 1) 0)
              (avg + 1.282 * std * mult) n,
            forecastLine (c.take adl) adl (c.getD (adl - 1) 0)
              (max 0 (avg - 1.282 * std * mult)) n,
            avg + 1.282 * std * mult, max 0 (avg - 1.282 * std * mult)) := by
  have hlen1 : 1 ≤ c.length := by
    have := List.length_pos.mpr hc
    omega
  have hlen : (c.take adl).length = adl := by rw [List.length_take]; omega
  have hne : c.take adl ≠ [] := by
    intro h
    rw [h] at hlen
    simp at hlen
    omega
  have hlt : adl - 1 < c.length := by omega
  have hget : (c.take adl).get? (adl - 1) = some (c.getD (adl - 1) 0) := by
    rw [List.get?_take (by omega), List.getD_eq_get?, List.get?_eq_get hlt]
    rfl
  have hmin : min adl (c.take adl).length = adl := by rw [hlen]; exact min_self adl
  unfold calculate_velocity_forecast
  rw [if_neg (by push_neg; exact ⟨hc, by omega⟩)]
  simp only [hp]
  rw [if_neg (by omega : ¬ adl = 0), if_neg hne, hmin, hget]

/-- C9: for every non-degenerate forecast call that returns a result,
history below `actual_data_length` is copied verbatim into all three
series, and each later index `i` carries
`lastActual + rate * (i - adl + 1)` with rates `avg`,
`avg + 1.282 * (std * mult)` and `max 0 (avg - 1.282 * (std * mult))`
respectively (the standard deviation scaled by the multiplier, z =
1.282). -/
theorem C9_projection (c : List ℝ) (n : ℕ) (t iv : ℝ) (adl : ℕ)
    (apiV apiDur apiStd : Option ℝ) (mult avg std : ℝ)
    (fa : List ℝ) (av : ℝ) (fo fp : List ℝ) (ov pv : ℝ)
    (hc : c ≠ []) (h1 : 1 ≤ adl) (h2 : adl ≤ c.length)
    (hp : velStdParams c adl iv apiV apiDur apiStd mult = some (avg, std))
    (hcalc : calculate_velocity_forecast c n t iv adl apiV apiDur apiStd mult =
      some (fa, av, fo, fp, ov, pv)) :
    av = avg ∧ ov = avg + 1.282 * (std * mult) ∧
    pv = max 0 (avg - 1.282 * (std * mult)) ∧
    ∀ i, i < n →
      (i < adl → fa.get? i = c.get? i ∧ fo.get? i = c.get? i ∧ fp.get? i = c.get? i) ∧
      (adl ≤ i →
        fa.get? i = some (c.getD (adl - 1) 0 + av * ((i - adl + 1 : ℕ) : ℝ)) ∧
        fo.get? i = some (c.getD (adl - 1) 0 + ov * ((i - adl + 1 : ℕ) : ℝ)) ∧
        fp.get? i = some (c.getD (adl - 1) 0 + pv * ((i - adl + 1 : ℕ) : ℝ))) := by
  rw [calc_closed c n t iv adl apiV apiDur apiStd mult avg std hc h1 h2 hp] at hcalc
  simp only [Option.some.injEq, Prod.mk.injEq] at hcalc
  obtain ⟨hfa, hav, hfo, hfp, hov, hpv⟩ := hcalc
  subst hfa hav hfo hfp hov hpv
  have hgetd : ∀ i' : ℕ, i' < adl → (c.take adl).getD i' 0 = c.getD i' 0 := by
    intro i' hi'
    rw [List.getD_eq_get?, List.getD_eq_get?, List.get?_take hi']
  have hcget : ∀ i' : ℕ, i' < adl → c.get? i' = some (c.getD i' 0) := by
    intro i' hi'
    have hlt' : i' < c.length := by omega
    rw [List.getD_eq_get?, List.get?_eq_get hlt']
    rfl
  refine ⟨rfl, by ring, by rw [mul_assoc], ?_⟩
  intro i hi
  constructor
  · intro hlt
    simp only [forecastLine_get _ _ _ _ _ _ hi, if_pos hlt, hgetd i hlt, hcget i hlt]
    exact ⟨trivial, trivial, trivial⟩
  · intro hge
    simp only [forecastLine_get _ _ _ _ _ _ hi, if_neg (show ¬ i < adl by omega)]
    exact ⟨trivial, trivial, trivial⟩

lemma story_eval_three :
    calculate_story_points_over_time false
      [⟨some (some 3), none, some 0, "Done", some 0⟩] 0 14 7 7 5 =
      some ([0, 7, 14], [3, 3, 3], [3, 3, 3]) := by
  norm_num [calculate_story_points_over_time, buildDatesAux, bucketSums, bucketStep,
    issuePoints, isCompletedAt, completedStatuses, forwardFill, forwardFillAux,
    List.zip_cons_cons]

/-- C3, witness: the amended statement with the end date before the
start date: the engine terminates with empty series. -/
theorem C3_witness :
    calculate_story_points_over_time false [] 0 (-1) 1 0 3 = some ([], [], []) :=
  (C3_amended false [] 0 (-1) 1 0 3).1 (by norm_num)

/-- C7, witness: on a concrete grid `[0, 7, 14]` with `today = 7`, the
forward-filled bucket 2 equals the last actual bucket 1. -/
theorem C7_witness :
    ([3, 3, 3] : List ℚ).get? 2 = ([3, 3, 3] : List ℚ).get? 1 := by
  refine (C7_forward_fill false [⟨some (some 3), none, some 0, "Done", some 0⟩]
    0 14 7 7 5 [0, 7, 14] [3, 3, 3] [3, 3, 3] (by norm_num) story_eval_three).1
    2 1 14 7 rfl (by norm_num) rfl (by norm_num) ?_
  intro k dk hk hget
  rcases (show k = 2 ∨ 3 ≤ k by omega) with rfl | h3
  · have : dk = 14 := by
      simpa using hget.symm
    omega
  · have : ([0, 7, 14] : List ℤ).get? k = none := by
      rw [List.get?_eq_none]
      simpa using h3
    rw [this] at hget
    exact absurd hget (by simp)

lemma story_eval_two :
    calculate_story_points_over_time false
      [⟨some (some 2), none, some 0, "Done", some 0⟩] 0 14 7 7 5 =
      some ([0, 7, 14], [2, 2, 2], [2, 2, 2]) := by
  norm_num [calculate_story_points_over_time, buildDatesAux, bucketSums, bucketStep,
    issuePoints, isCompletedAt, completedStatuses, forwardFill, forwardFillAux,
    List.zip_cons_cons]

/-- C8, witness: on a concrete well-formed single-issue run, the
completed value of bucket 0 is bounded by its total. -/
theorem C8_witness : (2 : ℚ) ≤ 2 :=
  C8_completed_le_total false [⟨some (some 2), none, some 0, "Done", some 0⟩]
    0 14 7 7 5 [0, 7, 14] [2, 2, 2] [2, 2, 2] story_eval_two
    (by intro iss hiss
        simp only [List.mem_singleton] at hiss
        subst hiss
        exact ⟨⟨2, rfl, by norm_num⟩, by simp⟩)
    0 2 2 rfl rfl

/-- C9, witness: the projection formula evaluated at index 4 of the
concrete run of `forecast_full`. -/
theorem C9_witness :
    ([0, 4, 10, 15, 20] : List ℝ).get? 4 =
      some (([(0 : ℝ), 4, 10]).getD 2 0 + 5 * ((4 - 3 + 1 : ℕ) : ℝ)) :=
  (((C9_projection [0, 4, 10] 5 20 7 3 none none none 1 5 1
      [0, 4, 10, 15, 20] 5 [0, 4, 10, 16.282, 22.564] [0, 4, 10, 13.718, 17.436]
      6.282 3.718 (by simp) (by norm_num) (by norm_num)
      velStdParams_three forecast_full).2.2.2 4 (by norm_num)).2 (by norm_num)).1

end Burnup
